import Mathlib

/-!
# Verification of the `emicon` rate-limiting engine

Shallow embedding of `src/rate_limiter.rs` (a token-bucket rate limiter
with named hard limits over rolling periods), together with
spec-modelled components (`backoff_for`, `parse_retry_after`) that the
specification describes but that are absent from the sources.

Modelling choices:
* `Instant` timestamps and `Duration`s are natural numbers of
  nanoseconds (`Duration`'s resolution). `Instant::duration_since` and
  `Duration::saturating_sub` saturate at zero, which is exactly
  truncated subtraction on `Nat`.
* `u32` counters become `Nat` (no claim touches the overflow boundary).
* The `f64` computation `(elapsed_secs * refill_rate as f64) as u32`
  becomes `elapsed * rate / nanosPerSec` on `Nat`: for non-negative
  values the Rust float-to-int cast truncates toward zero, and `Nat`
  division is that floor computed exactly (the model replaces `f64`
  rounding by exact rational arithmetic).
* The async mutex serialises all operations, so each public operation
  is a function from state (plus the `now` instants it reads) to state;
  the blocking `acquire` loop takes the list of instants at which its
  iterations run, and reports `none` when that list is exhausted with
  the caller still suspended.
* The `HashMap<String, HardLimit>` becomes an association list; no
  claim depends on iteration order.
-/

namespace Emicon

/-- Nanoseconds per second: the resolution of `std::time::Duration`. -/
def nanosPerSec : Nat := 1000000000

/-- Rolling-window period kinds, from `LimitPeriod` in the source. -/
inductive LimitPeriod where
  | minute
  | hour
  | day
  | month
  | year
deriving DecidableEq, Repr

/-- `LimitPeriod::duration`, in whole seconds. -/
def LimitPeriod.durationSecs : LimitPeriod → Nat
  | .minute => 60
  | .hour => 3600
  | .day => 86400
  | .month => 2629746
  | .year => 31556952

/-- `LimitPeriod::duration` in model units (nanoseconds). -/
def LimitPeriod.durationNanos (p : LimitPeriod) : Nat :=
  p.durationSecs * nanosPerSec

/-- The token bucket state (`struct TokenBucket`). -/
structure TokenBucket where
  capacity : Nat
  tokens : Nat
  refill_rate : Nat
  last_refill : Nat
deriving DecidableEq, Repr

/-- `TokenBucket::refill`: add `⌊elapsed_secs * refill_rate⌋` tokens,
capped at `capacity`; `last_refill` advances only when at least one
whole token was added. -/
def TokenBucket.refill (b : TokenBucket) (now : Nat) : TokenBucket :=
  let elapsed := now - b.last_refill
  let tokens_to_add := elapsed * b.refill_rate / nanosPerSec
  if 0 < tokens_to_add then
    { b with tokens := min (b.tokens + tokens_to_add) b.capacity, last_refill := now }
  else
    b

/-- One named hard limit (`struct HardLimit`). -/
structure HardLimit where
  max_calls : Nat
  current_calls : Nat
  period : LimitPeriod
  period_start : Nat
deriving DecidableEq, Repr

/-- `HardLimit::new`. -/
def HardLimit.new (max_calls : Nat) (period : LimitPeriod) (now : Nat) : HardLimit :=
  { max_calls := max_calls, current_calls := 0, period := period, period_start := now }

/-- `HardLimit::reset_if_needed`: the lazy rolling-window reset. -/
def HardLimit.reset_if_needed (l : HardLimit) (now : Nat) : HardLimit :=
  if l.period.durationNanos ≤ now - l.period_start then
    { l with current_calls := 0, period_start := now }
  else
    l

/-- `HardLimit::time_until_reset` (`saturating_sub` is `Nat` subtraction). -/
def HardLimit.time_until_reset (l : HardLimit) (now : Nat) : Nat :=
  l.period.durationNanos - (now - l.period_start)

/-- `HardLimit::remaining_calls` (`saturating_sub` is `Nat` subtraction). -/
def HardLimit.remaining_calls (l : HardLimit) : Nat :=
  l.max_calls - l.current_calls

/-- The error type (`enum RateLimitError`). -/
inductive RateLimitError where
  | invalidTokenCount (n : Nat)
  | hardLimitExceeded (limit : Nat) (period : LimitPeriod) (current : Nat) (reset_in : Nat)
deriving DecidableEq, Repr

/-- The `HardLimitExceeded` payload built at a failing limit. -/
def HardLimit.exceededError (l : HardLimit) (now : Nat) : RateLimitError :=
  .hardLimitExceeded l.max_calls l.period l.current_calls (l.time_until_reset now)

/-- `HardLimit::can_consume`: lazy reset, then a read-only check. The
reset mutates the limit, so the updated limit is returned too. -/
def HardLimit.can_consume (l : HardLimit) (now : Nat) (tokens : Nat) : HardLimit × Bool :=
  let l' := l.reset_if_needed now
  (l', decide (l'.current_calls + tokens ≤ l'.max_calls))

/-- `HardLimit::consume`: lazy reset, then either increment or build the
`HardLimitExceeded` error (the reset persists either way). -/
def HardLimit.consume (l : HardLimit) (now : Nat) (tokens : Nat) :
    HardLimit × Option RateLimitError :=
  let l' := l.reset_if_needed now
  if l'.current_calls + tokens ≤ l'.max_calls then
    ({ l' with current_calls := l'.current_calls + tokens }, none)
  else
    (l', some (l'.exceededError now))

/-- The limiter state: one bucket plus the named hard limits
(the `HashMap` as an association list). -/
structure RateLimiter where
  bucket : TokenBucket
  limits : List (String × HardLimit)
deriving DecidableEq, Repr

/-- `RateLimiter::new`: unconditional construction, bucket starts full,
no hard limits. -/
def RateLimiter.new (capacity refill_rate : Nat) (now : Nat) : RateLimiter :=
  { bucket := { capacity := capacity, tokens := capacity, refill_rate := refill_rate,
                last_refill := now },
    limits := [] }

/-- The fail-fast check loop (`for limit { if !limit.can_consume(n) ... }`):
returns the limits as mutated so far (lazy resets persist) and the first
violation, with limits after the failing one untouched. -/
def checkAll (ls : List (String × HardLimit)) (now : Nat) (n : Nat) :
    List (String × HardLimit) × Option RateLimitError :=
  match ls with
  | [] => ([], none)
  | (nm, l) :: rest =>
    let p := l.can_consume now n
    if p.2 then
      let q := checkAll rest now n
      ((nm, p.1) :: q.1, q.2)
    else
      ((nm, p.1) :: rest, some (p.1.exceededError now))

/-- The commit loop (`for limit { limit.consume(n)? }`): increments every
limit, stopping at the first failure (increments before it persist). -/
def commitAll (ls : List (String × HardLimit)) (now : Nat) (n : Nat) :
    List (String × HardLimit) × Option RateLimitError :=
  match ls with
  | [] => ([], none)
  | (nm, l) :: rest =>
    match l.consume now n with
    | (l', none) =>
      let q := commitAll rest now n
      ((nm, l') :: q.1, q.2)
    | (l', some e) => ((nm, l') :: rest, some e)

/-- `RateLimiter::try_acquire`: check hard limits, refill, consume from the
bucket if possible, and commit the hard limits only on bucket success. -/
def RateLimiter.try_acquire (rl : RateLimiter) (now : Nat) (n : Nat) :
    RateLimiter × Except RateLimitError Bool :=
  if n = 0 then (rl, .ok true)
  else
    match checkAll rl.limits now n with
    | (ls, some e) => ({ rl with limits := ls }, .error e)
    | (ls, none) =>
      let b := rl.bucket.refill now
      if n ≤ b.tokens then
        let b' := { b with tokens := b.tokens - n }
        match commitAll ls now n with
        | (ls', some e) => ({ bucket := b', limits := ls' }, .error e)
        | (ls', none) => ({ bucket := b', limits := ls' }, .ok true)
      else
        ({ bucket := b, limits := ls }, .ok false)

/-- The wait loop of `RateLimiter::acquire`. Each entry of `times` is the
instant at which one loop iteration runs (refill and, for iterations
after a sleep, the preceding hard-limit re-check). `none` means the
caller is still suspended when `times` runs out. -/
def acquireGo (b : TokenBucket) (ls : List (String × HardLimit)) (n : Nat) :
    List Nat → (TokenBucket × List (String × HardLimit)) × Option (Except RateLimitError Unit)
  | [] => ((b, ls), none)
  | [now] =>
    let b' := b.refill now
    if n ≤ b'.tokens then
      let b'' := { b' with tokens := b'.tokens - n }
      match commitAll ls now n with
      | (ls', some e) => ((b'', ls'), some (.error e))
      | (ls', none) => ((b'', ls'), some (.ok ()))
    else
      ((b', ls), none)
  | now :: now' :: rest =>
    let b' := b.refill now
    if n ≤ b'.tokens then
      let b'' := { b' with tokens := b'.tokens - n }
      match commitAll ls now n with
      | (ls', some e) => ((b'', ls'), some (.error e))
      | (ls', none) => ((b'', ls'), some (.ok ()))
    else
      match checkAll ls now' n with
      | (ls', some e) => ((b', ls'), some (.error e))
      | (ls', none) => acquireGo b' ls' n (now' :: rest)

/-- `RateLimiter::acquire`: `n = 0` is a no-op success; otherwise the
fail-fast hard-limit check followed by the wait loop. -/
def RateLimiter.acquire (rl : RateLimiter) (times : List Nat) (n : Nat) :
    RateLimiter × Option (Except RateLimitError Unit) :=
  if n = 0 then (rl, some (.ok ()))
  else
    match times with
    | [] => (rl, none)
    | now₀ :: _ =>
      match checkAll rl.limits now₀ n with
      | (ls, some e) => ({ rl with limits := ls }, some (.error e))
      | (ls, none) =>
        let r := acquireGo rl.bucket ls n times
        ({ bucket := r.1.1, limits := r.1.2 }, r.2)

/-- `RateLimiter::available_tokens`: refill, then report the count. -/
def RateLimiter.available_tokens (rl : RateLimiter) (now : Nat) : Nat × RateLimiter :=
  let b := rl.bucket.refill now
  (b.tokens, { rl with bucket := b })

/-- One reported row of `RateLimiter::hard_limit_status`. -/
structure HardLimitStatus where
  max_calls : Nat
  current_calls : Nat
  remaining_calls : Nat
  period : LimitPeriod
  reset_in : Nat
deriving DecidableEq, Repr

/-- The loop body of `RateLimiter::hard_limit_status`: per limit, lazy
reset then a snapshot; the resets persist in the limiter. -/
def statusAll (ls : List (String × HardLimit)) (now : Nat) :
    List (String × HardLimitStatus) × List (String × HardLimit) :=
  match ls with
  | [] => ([], [])
  | (nm, l) :: rest =>
    let l' := l.reset_if_needed now
    let row : HardLimitStatus :=
      { max_calls := l'.max_calls, current_calls := l'.current_calls,
        remaining_calls := l'.remaining_calls, period := l'.period,
        reset_in := l'.time_until_reset now }
    let q := statusAll rest now
    ((nm, row) :: q.1, (nm, l') :: q.2)

/-- `RateLimiter::hard_limit_status` at the limiter level. -/
def RateLimiter.hard_limit_status (rl : RateLimiter) (now : Nat) :
    List (String × HardLimitStatus) × RateLimiter :=
  let q := statusAll rl.limits now
  (q.1, { rl with limits := q.2 })

/-- `RateLimiter::time_until_available`: no refill, no mutation — a pure
estimate from the stored token count. The `f64` result
`tokens_deficit / refill_rate` (seconds) is modelled exactly in `ℚ`. -/
def RateLimiter.time_until_available (rl : RateLimiter) (n : Nat) : ℚ :=
  if n ≤ rl.bucket.tokens then 0
  else ((n - rl.bucket.tokens : Nat) : ℚ) / (rl.bucket.refill_rate : ℚ)

/-!
## Spec-modelled components

The specification (§3, §4.1, §4.4) describes a fractional refill carry
(`remainder`), a server-driven backoff state (`pause_until`,
`backoff_for`) and a Retry-After parser. None of these exist anywhere
in the repository's sources; the definitions below follow the spec's
words so the corresponding claims can be settled.
-/

/-- Modelled from the spec: the spec's token bucket (§3) additionally
carries `remainder` (fractional carry, `0 ≤ r < 1`); the source's
`TokenBucket` has no such field. Timestamps are nanoseconds as above;
`remainder` is an exact rational number of tokens. -/
structure CarryBucket where
  capacity : Nat
  tokens : Nat
  refill_rate : Nat
  last_refill : Nat
  remainder : ℚ
deriving DecidableEq, Repr

/-- Modelled from the spec: the spec's `refill()` (§4.1), absent from the
source — `raw = elapsed_seconds * refill_rate + remainder`;
`whole = floor(raw)`; `remainder = raw - whole`;
`tokens = min(capacity, tokens + whole)`; `last_refill = now`. -/
def CarryBucket.refillSpec (b : CarryBucket) (now : Nat) : CarryBucket :=
  let elapsed := now - b.last_refill
  if 0 < elapsed then
    let raw : ℚ := (elapsed : ℚ) / (nanosPerSec : ℚ) * (b.refill_rate : ℚ) + b.remainder
    { b with tokens := min b.capacity (b.tokens + ⌊raw⌋.toNat),
             remainder := raw - ⌊raw⌋,
             last_refill := now }
  else
    b

/-- Modelled from the spec: the backoff-aware token bucket of §3/§4.1,
absent from the source — the spec's bucket with the optional
`pause_until` deadline ("present+future ⇒ in backoff, yielding 0 tokens
regardless of elapsed time"). -/
structure BackoffBucket where
  capacity : Nat
  tokens : Nat
  refill_rate : ℚ
  last_refill : Nat
  remainder : ℚ
  pause_until : Option Nat
deriving DecidableEq, Repr

/-- Modelled from the spec: whether the bucket is in the Backoff state at
`now` (pause deadline present and still in the future). -/
def BackoffBucket.pauseActive (b : BackoffBucket) (now : Nat) : Bool :=
  match b.pause_until with
  | some p => now < p
  | none => false

/-- Modelled from the spec: the backoff-aware `refill()` — while in
backoff the bucket yields 0 tokens regardless of elapsed time (and no
credit accrues for paused time); otherwise the §4.1 remainder
accounting. -/
def BackoffBucket.refill (b : BackoffBucket) (now : Nat) : BackoffBucket :=
  if b.pauseActive now then
    { b with tokens := 0, remainder := 0, last_refill := now }
  else
    let elapsed := now - b.last_refill
    if 0 < elapsed then
      let raw : ℚ := (elapsed : ℚ) / (nanosPerSec : ℚ) * b.refill_rate + b.remainder
      { b with tokens := min b.capacity (b.tokens + ⌊raw⌋.toNat),
               remainder := raw - ⌊raw⌋,
               last_refill := now }
    else
      b

/-- Modelled from the spec: `backoff_for(duration)`, absent from the
source — `pause_until = max(pause_until, now + duration)`; zero
tokens and remainder immediately. -/
def BackoffBucket.backoff_for (b : BackoffBucket) (d : Nat) (now : Nat) : BackoffBucket :=
  let deadline := now + d
  { b with
      pause_until := some (match b.pause_until with
        | some p => max p deadline
        | none => deadline),
      tokens := 0,
      remainder := 0 }

/-- Modelled from the spec: `try_consume(n)` (§4.1), absent from the
source — refill; if `now < pause_until` return false without consuming;
else if `tokens ≥ n`, subtract and return true; else false. -/
def BackoffBucket.try_consume (b : BackoffBucket) (n : Nat) (now : Nat) :
    Bool × BackoffBucket :=
  let b' := b.refill now
  if b'.pauseActive now then (false, b')
  else if n ≤ b'.tokens then (true, { b' with tokens := b'.tokens - n })
  else (false, b')

/-- Modelled from the spec: `available_tokens()` on the backoff-aware
bucket — refill then return the current count. -/
def BackoffBucket.available_tokens (b : BackoffBucket) (now : Nat) : Nat × BackoffBucket :=
  let b' := b.refill now
  (b'.tokens, b')

/-- Whitespace trimmed from a header value (space, tab, newline,
carriage return). -/
def isTrimChar (c : Char) : Bool := c == ' ' || c == '\t' || c == '\n' || c == '\r'

/-- Trim leading and trailing whitespace from a character sequence. -/
def trimChars (cs : List Char) : List Char :=
  ((cs.dropWhile isTrimChar).reverse.dropWhile isTrimChar).reverse

/-- Parse a non-empty all-digit character sequence as a non-negative
integer. -/
def parseNat? (cs : List Char) : Option Nat :=
  if !cs.isEmpty && cs.all Char.isDigit then
    some (cs.foldl (fun acc c => acc * 10 + (c.toNat - 48)) 0)
  else none

/-- Modelled from the spec: `parse_retry_after` (§4.4), absent from the
source — trim; an all-digit value is that many seconds; otherwise a
value that parses as an HTTP-date yields `date - now` clamped at zero;
otherwise the fixed 30-second fallback. Header values are character
sequences; RFC 7231 date parsing itself is out of scope, so the date
parser is an explicit argument returning the date as a Unix second
count, `now` is in the same units, and the result is in whole
seconds. -/
def parse_retry_after (httpDate : List Char → Option ℤ) (now : ℤ) (raw : List Char) : Nat :=
  let s := trimChars raw
  match parseNat? s with
  | some n => n
  | none =>
    match httpDate s with
    | some date => (date - now).toNat
    | none => 30

deriving instance DecidableEq for Except

/-!
## Derived operation forms used by the claims
-/

/-- `k` sequential `acquire(1)` calls, all issued at the same instant
`t`; reports the final state and whether every call succeeded. -/
def acquireRepeat (t : Nat) : RateLimiter → Nat → RateLimiter × Bool
  | rl, 0 => (rl, true)
  | rl, k + 1 =>
    match rl.acquire [t] 1 with
    | (rl', some (.ok ())) => acquireRepeat t rl' k
    | (rl', _) => (rl', false)

/-- One public operation on a limiter, tagged with the instants at which
it runs (for C5's arbitrary operation sequences). -/
inductive LimiterOp where
  | refillOp (now : Nat)
  | acquireOp (times : List Nat) (n : Nat)
  | tryAcquireOp (now : Nat) (n : Nat)
  | availableOp (now : Nat)
deriving Repr

/-- The state effect of one operation. -/
def LimiterOp.apply (rl : RateLimiter) : LimiterOp → RateLimiter
  | .refillOp t => { rl with bucket := rl.bucket.refill t }
  | .acquireOp ts n => (rl.acquire ts n).1
  | .tryAcquireOp t n => (rl.try_acquire t n).1
  | .availableOp t => (rl.available_tokens t).2

/-- Pointwise comparison of hard-limit lists: same names, `max_calls`
and `period`, and each `current_calls` either unchanged or zeroed by
the sanctioned lazy window reset. -/
def limitsPreservedB : List (String × HardLimit) → List (String × HardLimit) → Bool
  | [], [] => true
  | p :: ps, q :: qs =>
    p.1 == q.1 && p.2.max_calls == q.2.max_calls && decide (p.2.period = q.2.period) &&
      (q.2.current_calls == p.2.current_calls || q.2.current_calls == 0) &&
      limitsPreservedB ps qs
  | _, _ => false

/-- The preservation relation as a proposition. -/
def limitsPreserved (ls ls' : List (String × HardLimit)) : Prop :=
  limitsPreservedB ls ls' = true

/-- Every limit in the list has its lazy reset already applied at `now`
and admits `n` more calls — the state of the hard-limit list right
after a successful fail-fast check at `now`. -/
def checkedLimits (now n : Nat) (ls : List (String × HardLimit)) : Prop :=
  ∀ p ∈ ls, p.2.reset_if_needed now = p.2 ∧ p.2.current_calls + n ≤ p.2.max_calls

/-!
## Helper lemmas
-/

theorem TokenBucket.refill_capacity (b : TokenBucket) (t : Nat) :
    (b.refill t).capacity = b.capacity := by
  simp only [TokenBucket.refill]
  split <;> rfl

theorem TokenBucket.refill_rate_preserved (b : TokenBucket) (t : Nat) :
    (b.refill t).refill_rate = b.refill_rate := by
  simp only [TokenBucket.refill]
  split <;> rfl

theorem TokenBucket.refill_tokens_le (b : TokenBucket) (t : Nat)
    (h : b.tokens ≤ b.capacity) : (b.refill t).tokens ≤ b.capacity := by
  simp only [TokenBucket.refill]
  split
  · exact min_le_right _ _
  · exact h

theorem TokenBucket.refill_le_tokens (b : TokenBucket) (t : Nat)
    (h : b.tokens ≤ b.capacity) : b.tokens ≤ (b.refill t).tokens := by
  simp only [TokenBucket.refill]
  split
  · exact le_min (Nat.le_add_right _ _) h
  · exact le_refl _

theorem LimitPeriod.durationNanos_pos (p : LimitPeriod) : 0 < p.durationNanos := by
  cases p <;> decide

theorem HardLimit.reset_if_needed_idem (l : HardLimit) (now : Nat) :
    (l.reset_if_needed now).reset_if_needed now = l.reset_if_needed now := by
  have hpos := LimitPeriod.durationNanos_pos l.period
  by_cases h : l.period.durationNanos ≤ now - l.period_start
  · have h1 : l.reset_if_needed now = { l with current_calls := 0, period_start := now } := by
      simp only [HardLimit.reset_if_needed]
      rw [if_pos h]
    rw [h1]
    simp only [HardLimit.reset_if_needed]
    rw [if_neg (by simp; omega)]
  · have h1 : l.reset_if_needed now = l := by
      simp only [HardLimit.reset_if_needed]
      rw [if_neg h]
    rw [h1, h1]

theorem HardLimit.reset_fields (l : HardLimit) (now : Nat) :
    (l.reset_if_needed now).max_calls = l.max_calls ∧
    (l.reset_if_needed now).period = l.period ∧
    ((l.reset_if_needed now).current_calls = l.current_calls ∨
      (l.reset_if_needed now).current_calls = 0) := by
  simp only [HardLimit.reset_if_needed]
  split <;> simp

theorem limitsPreserved_cons_iff (nm nm' : String) (l l' : HardLimit)
    (ps qs : List (String × HardLimit)) :
    limitsPreserved ((nm, l) :: ps) ((nm', l') :: qs) ↔
      nm = nm' ∧ l'.max_calls = l.max_calls ∧ l'.period = l.period ∧
      (l'.current_calls = l.current_calls ∨ l'.current_calls = 0) ∧
      limitsPreserved ps qs := by
  simp only [limitsPreserved, limitsPreservedB, Bool.and_eq_true, beq_iff_eq,
    decide_eq_true_eq, Bool.or_eq_true, and_assoc]
  constructor
  · rintro ⟨h1, h2, h3, h4, h5⟩
    exact ⟨h1, h2.symm, h3.symm, h4, h5⟩
  · rintro ⟨h1, h2, h3, h4, h5⟩
    exact ⟨h1, h2.symm, h3.symm, h4, h5⟩

theorem limitsPreserved_refl (ls : List (String × HardLimit)) : limitsPreserved ls ls := by
  induction ls with
  | nil => rfl
  | cons p ps ih =>
    obtain ⟨nm, l⟩ := p
    exact (limitsPreserved_cons_iff nm nm l l ps ps).mpr ⟨rfl, rfl, rfl, Or.inl rfl, ih⟩

theorem limitsPreserved_trans {a b c : List (String × HardLimit)}
    (hab : limitsPreserved a b) (hbc : limitsPreserved b c) : limitsPreserved a c := by
  induction a generalizing b c with
  | nil =>
    cases b with
    | nil => cases c with
      | nil => rfl
      | cons r rs => simp [limitsPreserved, limitsPreservedB] at hbc
    | cons q qs => simp [limitsPreserved, limitsPreservedB] at hab
  | cons p ps ih =>
    obtain ⟨nm, l⟩ := p
    cases b with
    | nil => simp [limitsPreserved, limitsPreservedB] at hab
    | cons q qs =>
      obtain ⟨nm₁, l₁⟩ := q
      cases c with
      | nil => simp [limitsPreserved, limitsPreservedB] at hbc
      | cons r rs =>
        obtain ⟨nm₂, l₂⟩ := r
        rcases (limitsPreserved_cons_iff nm nm₁ l l₁ ps qs).mp hab with
          ⟨hn1, hm1, hp1, hc1, ht1⟩
        rcases (limitsPreserved_cons_iff nm₁ nm₂ l₁ l₂ qs rs).mp hbc with
          ⟨hn2, hm2, hp2, hc2, ht2⟩
        refine (limitsPreserved_cons_iff nm nm₂ l l₂ ps rs).mpr
          ⟨hn1.trans hn2, hm2.trans hm1, hp2.trans hp1, ?_, ih ht1 ht2⟩
        rcases hc2 with h2 | h2
        · rcases hc1 with h1 | h1
          · exact Or.inl (h2.trans h1)
          · exact Or.inr (h2.trans h1)
        · exact Or.inr h2

theorem checkAll_preserved (now n : Nat) :
    ∀ ls : List (String × HardLimit), limitsPreserved ls (checkAll ls now n).1 := by
  intro ls
  induction ls with
  | nil => rfl
  | cons p ps ih =>
    obtain ⟨nm, l⟩ := p
    rcases HardLimit.reset_fields l now with ⟨hm, hp, hc⟩
    simp only [checkAll, HardLimit.can_consume]
    split
    · exact (limitsPreserved_cons_iff nm nm l (l.reset_if_needed now) ps
        (checkAll ps now n).1).mpr ⟨rfl, hm, hp, hc, ih⟩
    · exact (limitsPreserved_cons_iff nm nm l (l.reset_if_needed now) ps ps).mpr
        ⟨rfl, hm, hp, hc, limitsPreserved_refl ps⟩

theorem checkAll_ok_checked (now n : Nat) :
    ∀ ls : List (String × HardLimit), (checkAll ls now n).2 = none →
      checkedLimits now n (checkAll ls now n).1 := by
  intro ls
  induction ls with
  | nil => intro _ p hp; cases hp
  | cons p ps ih =>
    obtain ⟨nm, l⟩ := p
    simp only [checkAll, HardLimit.can_consume]
    split
    · rename_i hok
      intro he q hq
      rcases List.mem_cons.mp hq with hq | hq
      · subst hq
        exact ⟨HardLimit.reset_if_needed_idem l now, of_decide_eq_true hok⟩
      · exact ih he q hq
    · intro he
      simp at he


/-- C2: `parse_retry_after` is total by its very type (it returns a
duration, never an error). After trimming: an input that parses as a
non-negative integer is returned as that many seconds; otherwise an
input that parses as an HTTP-date yields `date - now`, with dates not
in the future clamped to zero; every other input yields the fixed
30-second fallback. -/
theorem parse_retry_after_spec (p : List Char → Option ℤ) (now : ℤ) (raw : List Char) :
    (∀ n, parseNat? (trimChars raw) = some n → parse_retry_after p now raw = n) ∧
    (∀ d, parseNat? (trimChars raw) = none → p (trimChars raw) = some d →
      parse_retry_after p now raw = (d - now).toNat ∧
      (d ≤ now → parse_retry_after p now raw = 0)) ∧
    (parseNat? (trimChars raw) = none → p (trimChars raw) = none →
      parse_retry_after p now raw = 30) := by
  refine ⟨fun n hn => ?_, fun d hn hd => ?_, fun hn hd => ?_⟩
  · simp only [parse_retry_after, hn]
  · refine ⟨?_, fun hpast => ?_⟩ <;> simp only [parse_retry_after, hn, hd]
    exact Int.toNat_of_nonpos (by omega)
  · simp only [parse_retry_after, hn, hd]

/-- Witness for C2 at concrete inputs: `" 120 "` parses as 120 seconds,
and with no date parser an unparseable value falls back to 30. -/
theorem parse_retry_after_spec_witness :
    parse_retry_after (fun _ => none) 0 " 120 ".toList = 120 ∧
    parse_retry_after (fun _ => none) 0 "soon".toList = 30 :=
  ⟨(parse_retry_after_spec (fun _ => none) 0 " 120 ".toList).1 120 (by decide),
   (parse_retry_after_spec (fun _ => none) 0 "soon".toList).2.2 (by decide) rfl⟩

/-- C4 fails on the source: `RateLimiter::new` has no error path at all —
it accepts `capacity = 0` and `refill_rate = 0` and returns a limiter
unconditionally, and the resulting limiter can never grant a request
(`try_acquire n` returns `Ok(false)` for every positive `n` at every
instant, since the bucket holds 0 tokens and refills at rate 0). -/
theorem new_unchecked_config (t now n : Nat) (h : 1 ≤ n) :
    RateLimiter.new 0 0 t =
      { bucket := { capacity := 0, tokens := 0, refill_rate := 0, last_refill := t },
        limits := [] } ∧
    ((RateLimiter.new 0 0 t).try_acquire now n).2 = .ok false := by
  refine ⟨rfl, ?_⟩
  simp only [RateLimiter.new, RateLimiter.try_acquire, checkAll, TokenBucket.refill,
    Nat.mul_zero, Nat.zero_div, lt_irrefl, if_false]
  rw [if_neg (by omega), if_neg (by omega)]

/-- Witness for C4: `new(0, 0)` built at instant 0, probed at instant 5
with a 1-token request. -/
theorem new_unchecked_config_witness :
    1 ≤ 1 ∧ ((RateLimiter.new 0 0 0).try_acquire 5 1).2 = .ok false :=
  ⟨by decide, (new_unchecked_config 0 5 1 (by decide)).2⟩

/-- C3 fails on the source: `TokenBucket::refill` keeps no fractional
carry. From an empty bucket (capacity 10, rate 1/s, `last_refill` 0),
refilling at `t = 1.5 s` and again at `t = 3 s` yields 2 tokens, while a
single refill over the same 3 s yields 3; under the spec's `remainder`
accounting (`CarryBucket.refillSpec`) the same two instants yield 3.
Half a token of accrual is discarded by the first call, refuting
"no fractional token accrual is ever discarded across successive refill
calls" and the claimed `remainder` bookkeeping. -/
theorem refill_fraction_loss :
    (TokenBucket.refill (TokenBucket.refill
        { capacity := 10, tokens := 0, refill_rate := 1, last_refill := 0 }
        1500000000) 3000000000).tokens = 2 ∧
    (TokenBucket.refill
        { capacity := 10, tokens := 0, refill_rate := 1, last_refill := 0 }
        3000000000).tokens = 3 ∧
    (CarryBucket.refillSpec (CarryBucket.refillSpec
        { capacity := 10, tokens := 0, refill_rate := 1, last_refill := 0, remainder := 0 }
        1500000000) 3000000000).tokens = 3 := by
  refine ⟨by decide, by decide, ?_⟩
  norm_num [CarryBucket.refillSpec, nanosPerSec]
  decide

/-- C3 amended: for elapsed time with `⌊elapsed_secs * refill_rate⌋ > 0`,
`refill` adds exactly that many whole tokens capped at `capacity` and
sets `last_refill = now`, discarding the fractional remainder of the
product; when the floor is zero it leaves the bucket (including
`last_refill`) entirely unchanged, so sub-token elapsed time is carried
implicitly by the stale `last_refill` rather than by a `remainder`
field. -/
theorem refill_floor_no_carry (b : TokenBucket) (now : Nat) :
    (0 < (now - b.last_refill) * b.refill_rate / nanosPerSec →
      b.refill now =
        { b with
            tokens := min (b.tokens + (now - b.last_refill) * b.refill_rate / nanosPerSec)
                          b.capacity,
            last_refill := now }) ∧
    ((now - b.last_refill) * b.refill_rate / nanosPerSec = 0 → b.refill now = b) ∧
    (∀ t', (now - b.last_refill) * b.refill_rate / nanosPerSec = 0 →
      (b.refill now).refill t' = b.refill t') := by
  have h2 : ∀ hh : (now - b.last_refill) * b.refill_rate / nanosPerSec = 0,
      b.refill now = b := by
    intro hh
    simp only [TokenBucket.refill]
    rw [if_neg (by omega)]
  refine ⟨fun h => ?_, h2, fun t' h => by rw [h2 h]⟩
  simp only [TokenBucket.refill]
  rw [if_pos h]

/-- Witness for C3's amended statement: with rate 1/s, 2.5 s of elapsed
time adds 2 whole tokens (the half token is dropped), and 0.5 s adds
nothing and leaves the bucket untouched. -/
theorem refill_floor_no_carry_witness :
    (0 < (2500000000 - 0) * 1 / nanosPerSec ∧
      TokenBucket.refill { capacity := 10, tokens := 2, refill_rate := 1, last_refill := 0 }
        2500000000 =
        { capacity := 10, tokens := 4, refill_rate := 1, last_refill := 2500000000 }) ∧
    ((500000000 - 0) * 1 / nanosPerSec = 0 ∧
      TokenBucket.refill { capacity := 10, tokens := 2, refill_rate := 1, last_refill := 0 }
        500000000 =
        { capacity := 10, tokens := 2, refill_rate := 1, last_refill := 0 }) :=
  ⟨⟨by decide,
    ((refill_floor_no_carry
        { capacity := 10, tokens := 2, refill_rate := 1, last_refill := 0 }
        2500000000).1 (by decide)).trans (by decide)⟩,
   ⟨by decide,
    (refill_floor_no_carry
        { capacity := 10, tokens := 2, refill_rate := 1, last_refill := 0 }
        500000000).2.1 (by decide)⟩⟩

/-- C10: `time_until_available` reads the stored token count without
refilling and mutates nothing (in this model it is a pure function of
the state, mirroring the source's non-`mut` lock use): it returns zero
iff the stored count already covers the request, otherwise exactly
`(n - tokens) / refill_rate` seconds; and because it skips the refill it
can report a positive wait even though enough real time has elapsed for
an immediately following `available_tokens` call to return the full
capacity. -/
theorem time_until_available_stale_estimate (rl : RateLimiter) (n : Nat)
    (hr : 0 < rl.bucket.refill_rate) :
    (rl.time_until_available n = 0 ↔ n ≤ rl.bucket.tokens) ∧
    (rl.bucket.tokens < n →
      rl.time_until_available n =
        ((n - rl.bucket.tokens : Nat) : ℚ) / (rl.bucket.refill_rate : ℚ)) ∧
    (0 < RateLimiter.time_until_available
        { bucket := { capacity := 5, tokens := 0, refill_rate := 1, last_refill := 0 },
          limits := [] } 1 ∧
      (RateLimiter.available_tokens
        { bucket := { capacity := 5, tokens := 0, refill_rate := 1, last_refill := 0 },
          limits := [] } 10000000000).1 = 5) := by
  refine ⟨⟨fun h0 => ?_, fun hle => ?_⟩, fun hlt => ?_, ?_, by decide⟩
  · by_contra hn
    rw [RateLimiter.time_until_available, if_neg hn] at h0
    have hd : (0:ℚ) < ((n - rl.bucket.tokens : Nat) : ℚ) := by
      have : 0 < n - rl.bucket.tokens := by omega
      exact_mod_cast this
    have hrq : (0:ℚ) < (rl.bucket.refill_rate : ℚ) := by exact_mod_cast hr
    exact absurd h0 (ne_of_gt (div_pos hd hrq))
  · rw [RateLimiter.time_until_available, if_pos hle]
  · rw [RateLimiter.time_until_available, if_neg (by omega)]
  · norm_num [RateLimiter.time_until_available]

theorem statusAll_spec (now : Nat) : ∀ ls : List (String × HardLimit),
    (statusAll ls now).2 = ls.map (fun p => (p.1, p.2.reset_if_needed now)) ∧
    (statusAll ls now).1 = ls.map (fun p =>
      (p.1,
        { max_calls := (p.2.reset_if_needed now).max_calls,
          current_calls := (p.2.reset_if_needed now).current_calls,
          remaining_calls := (p.2.reset_if_needed now).max_calls -
            (p.2.reset_if_needed now).current_calls,
          period := (p.2.reset_if_needed now).period,
          reset_in := (p.2.reset_if_needed now).period.durationNanos -
            (now - (p.2.reset_if_needed now).period_start) })) := by
  intro ls
  induction ls with
  | nil => exact ⟨rfl, rfl⟩
  | cons p ps ih =>
    obtain ⟨nm, l⟩ := p
    simp only [statusAll, List.map, HardLimit.remaining_calls, HardLimit.time_until_reset]
    exact ⟨by rw [ih.1], by rw [ih.2]⟩

/-- C7 fails as stated: `hard_limit_status` is not read-only. It calls
`reset_if_needed` on every limit, so once a period has elapsed the
snapshot call itself zeroes `current_calls` and advances `period_start`:
a limit at 3/10 calls with a one-minute window probed 61 s after its
window start comes back reset, and the limiter state has changed. -/
theorem hard_limit_status_mutates :
    ((RateLimiter.hard_limit_status
        { bucket := { capacity := 5, tokens := 5, refill_rate := 1, last_refill := 0 },
          limits := [("daily",
            { max_calls := 10, current_calls := 3, period := .minute, period_start := 0 })] }
        61000000000).2).limits =
      [("daily",
        { max_calls := 10, current_calls := 0, period := .minute,
          period_start := 61000000000 })] ∧
    (RateLimiter.hard_limit_status
        { bucket := { capacity := 5, tokens := 5, refill_rate := 1, last_refill := 0 },
          limits := [("daily",
            { max_calls := 10, current_calls := 3, period := .minute, period_start := 0 })] }
        61000000000).2 ≠
      { bucket := { capacity := 5, tokens := 5, refill_rate := 1, last_refill := 0 },
        limits := [("daily",
          { max_calls := 10, current_calls := 3, period := .minute, period_start := 0 })] } := by
  exact ⟨by decide, by decide⟩

/-- C7 amended: `hard_limit_status` first applies the sanctioned lazy
window reset to each limit (mutating `current_calls`/`period_start` when
the period has elapsed), then reports, per limit and from the post-reset
state, `max_calls`, `current_calls`, `remaining = max - current`
(saturating) and `reset_in = period_duration - elapsed_since(period_start)`
clamped at 0; the bucket is untouched and no other limit mutation
occurs. -/
theorem hard_limit_status_snapshot (rl : RateLimiter) (now : Nat) :
    ((rl.hard_limit_status now).2).bucket = rl.bucket ∧
    ((rl.hard_limit_status now).2).limits =
      rl.limits.map (fun p => (p.1, p.2.reset_if_needed now)) ∧
    (rl.hard_limit_status now).1 = rl.limits.map (fun p =>
      (p.1,
        { max_calls := (p.2.reset_if_needed now).max_calls,
          current_calls := (p.2.reset_if_needed now).current_calls,
          remaining_calls := (p.2.reset_if_needed now).max_calls -
            (p.2.reset_if_needed now).current_calls,
          period := (p.2.reset_if_needed now).period,
          reset_in := (p.2.reset_if_needed now).period.durationNanos -
            (now - (p.2.reset_if_needed now).period_start) })) :=
  ⟨rfl, (statusAll_spec now rl.limits).1, (statusAll_spec now rl.limits).2⟩

theorem acquireRepeat_drain (t cap rate : Nat) :
    ∀ k m, k ≤ m →
      acquireRepeat t
        { bucket := { capacity := cap, tokens := m, refill_rate := rate, last_refill := t },
          limits := [] } k =
      ({ bucket := { capacity := cap, tokens := m - k, refill_rate := rate, last_refill := t },
         limits := [] }, true) := by
  intro k
  induction k with
  | zero => intro m _; rfl
  | succ k ih =>
    intro m hm
    have h1 : 1 ≤ m := by omega
    have hacq : RateLimiter.acquire
        { bucket := { capacity := cap, tokens := m, refill_rate := rate, last_refill := t },
          limits := [] } [t] 1 =
        ({ bucket := { capacity := cap, tokens := m - 1, refill_rate := rate, last_refill := t },
           limits := [] }, some (.ok ())) := by
      simp [RateLimiter.acquire, acquireGo, checkAll, commitAll, TokenBucket.refill,
        Nat.sub_self, h1]
    have htail := ih (m - 1) (by omega)
    have hsub : m - 1 - k = m - (k + 1) := by omega
    rw [hsub] at htail
    simp only [acquireRepeat, hacq, htail]

/-- C8: on a freshly built limiter (bucket full, no hard limits) probed
entirely at the construction instant, `capacity` sequential `acquire(1)`
calls all succeed and drain the bucket to zero, and the immediately
following `try_acquire(1)` returns `Ok(false)`. -/
theorem fresh_limiter_burst (cap rate t : Nat) :
    acquireRepeat t (RateLimiter.new cap rate t) cap =
      ({ bucket := { capacity := cap, tokens := 0, refill_rate := rate, last_refill := t },
         limits := [] }, true) ∧
    ((acquireRepeat t (RateLimiter.new cap rate t) cap).1.try_acquire t 1).2 = .ok false := by
  have hd := acquireRepeat_drain t cap rate cap cap (le_refl cap)
  rw [Nat.sub_self] at hd
  have hnew : RateLimiter.new cap rate t =
      { bucket := { capacity := cap, tokens := cap, refill_rate := rate, last_refill := t },
        limits := [] } := rfl
  rw [hnew]
  refine ⟨hd, ?_⟩
  rw [hd]
  simp [RateLimiter.try_acquire, checkAll, TokenBucket.refill, Nat.sub_self]

/-- C1: `backoff_for(d)` at instant `now` zeroes the tokens and the
fractional remainder immediately, sets `pause_until` to the later of the
existing deadline and `now + d` (an absent deadline becomes `now + d`),
makes `available_tokens` report 0 and `try_consume(1)` report false at
every instant before `now + d` — even though tokens would otherwise have
refilled — and a second overlapping `backoff_for` only ever moves the
effective deadline to the later of the two requests, never earlier. -/
theorem backoff_overrides (b : BackoffBucket) (d now : Nat) :
    (b.backoff_for d now).tokens = 0 ∧
    (b.backoff_for d now).remainder = 0 ∧
    (∀ p, b.pause_until = some p →
      (b.backoff_for d now).pause_until = some (max p (now + d))) ∧
    (b.pause_until = none → (b.backoff_for d now).pause_until = some (now + d)) ∧
    (∀ t', now ≤ t' → t' < now + d →
      ((b.backoff_for d now).available_tokens t').1 = 0 ∧
      ((b.backoff_for d now).try_consume 1 t').1 = false) ∧
    (∀ d₂ t₂, ∃ q, ((b.backoff_for d now).backoff_for d₂ t₂).pause_until = some q ∧
      now + d ≤ q ∧ t₂ + d₂ ≤ q) := by
  have hpu : ∃ q, (b.backoff_for d now).pause_until = some q ∧ now + d ≤ q := by
    cases hb : b.pause_until with
    | none => exact ⟨now + d, by simp [BackoffBucket.backoff_for, hb], le_refl _⟩
    | some p =>
      exact ⟨max p (now + d), by simp [BackoffBucket.backoff_for, hb], le_max_right _ _⟩
  obtain ⟨q, hq, hqd⟩ := hpu
  have hact : ∀ t', t' < now + d → (b.backoff_for d now).pauseActive t' = true := by
    intro t' ht
    simp only [BackoffBucket.pauseActive, hq, decide_eq_true_eq]
    omega
  refine ⟨by simp [BackoffBucket.backoff_for], by simp [BackoffBucket.backoff_for],
    fun p hp => by simp [BackoffBucket.backoff_for, hp],
    fun hp => by simp [BackoffBucket.backoff_for, hp],
    fun t' h1 h2 => ?_, fun d₂ t₂ => ?_⟩
  · have hrefill : (b.backoff_for d now).refill t' =
        { b.backoff_for d now with tokens := 0, remainder := 0, last_refill := t' } := by
      simp only [BackoffBucket.refill, hact t' h2, if_true]
    have hact2 : ((b.backoff_for d now).refill t').pauseActive t' = true := by
      rw [hrefill]
      simp only [BackoffBucket.pauseActive, hq, decide_eq_true_eq]
      omega
    constructor
    · simp [BackoffBucket.available_tokens, hrefill]
    · simp only [BackoffBucket.try_consume, hact2, if_true]
  · refine ⟨max q (t₂ + d₂), ?_, le_trans hqd (le_max_left _ _), le_max_right _ _⟩
    have hq' : (match b.pause_until with
        | some p => max p (now + d)
        | none => now + d) = q := by
      have h := hq
      simp only [BackoffBucket.backoff_for, Option.some.injEq] at h
      exact h
    simp [BackoffBucket.backoff_for, hq']

/-- Witness for C1: a bucket with 7 tokens and no prior deadline, backed
off for 5 s at instant 0 and probed 3 s in. -/
theorem backoff_overrides_witness :
    (BackoffBucket.backoff_for
        { capacity := 10, tokens := 7, refill_rate := 1, last_refill := 0,
          remainder := 0, pause_until := none } 5000000000 0).pause_until =
      some 5000000000 ∧
    ((BackoffBucket.backoff_for
        { capacity := 10, tokens := 7, refill_rate := 1, last_refill := 0,
          remainder := 0, pause_until := none } 5000000000 0).available_tokens
        3000000000).1 = 0 ∧
    ((BackoffBucket.backoff_for
        { capacity := 10, tokens := 7, refill_rate := 1, last_refill := 0,
          remainder := 0, pause_until := none } 5000000000 0).try_consume 1
        3000000000).1 = false :=
  have h := backoff_overrides
    { capacity := 10, tokens := 7, refill_rate := 1, last_refill := 0,
      remainder := 0, pause_until := none } 5000000000 0
  ⟨h.2.2.2.1 rfl,
   (h.2.2.2.2.1 3000000000 (by decide) (by decide)).1,
   (h.2.2.2.2.1 3000000000 (by decide) (by decide)).2⟩

/-- Witness for C10: a bucket holding 3 tokens at rate 2/s, asked for 1
token. -/
theorem time_until_available_stale_estimate_witness :
    0 < 2 ∧
    (RateLimiter.time_until_available
        { bucket := { capacity := 5, tokens := 3, refill_rate := 2, last_refill := 0 },
          limits := [] } 1 = 0 ↔
      1 ≤ 3) :=
  ⟨by decide,
   (time_until_available_stale_estimate
      { bucket := { capacity := 5, tokens := 3, refill_rate := 2, last_refill := 0 },
        limits := [] } 1 (by decide)).1⟩

theorem acquireGo_inv (n : Nat) : ∀ (ts : List Nat) (b : TokenBucket)
    (ls : List (String × HardLimit)), b.tokens ≤ b.capacity →
    (acquireGo b ls n ts).1.1.capacity = b.capacity ∧
    (acquireGo b ls n ts).1.1.tokens ≤ b.capacity := by
  intro ts
  induction ts with
  | nil => intro b ls h; exact ⟨rfl, h⟩
  | cons now rest ih =>
    intro b ls h
    have hcap : (b.refill now).capacity = b.capacity := TokenBucket.refill_capacity b now
    have hle : (b.refill now).tokens ≤ b.capacity := TokenBucket.refill_tokens_le b now h
    cases rest with
    | nil =>
      simp only [acquireGo]
      split
      · split <;> exact ⟨hcap, le_trans (Nat.sub_le _ _) hle⟩
      · exact ⟨hcap, hle⟩
    | cons now' rest' =>
      simp only [acquireGo]
      split
      · split <;> exact ⟨hcap, le_trans (Nat.sub_le _ _) hle⟩
      · split
        · exact ⟨hcap, hle⟩
        · rename_i ls' heq
          have hin : (b.refill now).tokens ≤ (b.refill now).capacity := by
            rw [hcap]; exact hle
          have hr := ih (b.refill now) ls' hin
          exact ⟨hr.1.trans hcap, le_trans hr.2 (le_of_eq hcap)⟩

theorem applyOp_inv (rl : RateLimiter) (op : LimiterOp)
    (h : rl.bucket.tokens ≤ rl.bucket.capacity) :
    (LimiterOp.apply rl op).bucket.tokens ≤ (LimiterOp.apply rl op).bucket.capacity := by
  cases op with
  | refillOp t =>
    simp only [LimiterOp.apply]
    rw [TokenBucket.refill_capacity]
    exact TokenBucket.refill_tokens_le rl.bucket t h
  | acquireOp ts n =>
    simp only [LimiterOp.apply, RateLimiter.acquire]
    split
    · exact h
    · split
      · exact h
      · split
        · exact h
        · rename_i ls heq
          have hr := fun ts => acquireGo_inv n ts rl.bucket ls h
          exact le_trans (hr _).2 (le_of_eq ((hr _).1).symm)
  | tryAcquireOp now n =>
    have hcap : (rl.bucket.refill now).capacity = rl.bucket.capacity :=
      TokenBucket.refill_capacity rl.bucket now
    have hle : (rl.bucket.refill now).tokens ≤ rl.bucket.capacity :=
      TokenBucket.refill_tokens_le rl.bucket now h
    simp only [LimiterOp.apply, RateLimiter.try_acquire]
    split
    · exact h
    · split
      · exact h
      · split
        · split <;> (rw [hcap]; exact le_trans (Nat.sub_le _ _) hle)
        · rw [hcap]; exact hle
  | availableOp t =>
    simp only [LimiterOp.apply, RateLimiter.available_tokens]
    rw [TokenBucket.refill_capacity]
    exact TokenBucket.refill_tokens_le rl.bucket t h

theorem foldl_apply_inv (ops : List LimiterOp) : ∀ rl : RateLimiter,
    rl.bucket.tokens ≤ rl.bucket.capacity →
    (ops.foldl LimiterOp.apply rl).bucket.tokens ≤
      (ops.foldl LimiterOp.apply rl).bucket.capacity := by
  induction ops with
  | nil => intro rl h; exact h
  | cons op rest ih =>
    intro rl h
    exact ih (LimiterOp.apply rl op) (applyOp_inv rl op h)

/-- C5: starting from `new` (bucket full) and applying any sequence of
public operations (refill, blocking acquire at any instants,
try_acquire, available_tokens), the token count never exceeds the
capacity (it is a `Nat`, hence never below 0), and a further `refill` at
any instant never decreases the token count — consumption inside the
acquire paths is the only decrease. -/
theorem tokens_bounded_and_refill_monotone (cap rate t₀ : Nat) (ops : List LimiterOp)
    (t : Nat) :
    (ops.foldl LimiterOp.apply (RateLimiter.new cap rate t₀)).bucket.tokens ≤
      (ops.foldl LimiterOp.apply (RateLimiter.new cap rate t₀)).bucket.capacity ∧
    (ops.foldl LimiterOp.apply (RateLimiter.new cap rate t₀)).bucket.tokens ≤
      ((ops.foldl LimiterOp.apply (RateLimiter.new cap rate t₀)).bucket.refill t).tokens := by
  have hinv := foldl_apply_inv ops (RateLimiter.new cap rate t₀) (le_refl cap)
  exact ⟨hinv, TokenBucket.refill_le_tokens _ t hinv⟩

theorem acquireGo_no_grant (n : Nat) : ∀ (ts : List Nat) (b : TokenBucket)
    (ls : List (String × HardLimit)), b.tokens ≤ b.capacity → b.capacity < n →
    (acquireGo b ls n ts).2 ≠ some (.ok ()) := by
  intro ts
  induction ts with
  | nil => intro b ls _ _ h; exact Option.noConfusion h
  | cons now rest ih =>
    intro b ls hinv hcap h
    have hle : (b.refill now).tokens ≤ b.capacity := TokenBucket.refill_tokens_le b now hinv
    cases rest with
    | nil =>
      simp only [acquireGo] at h
      rw [if_neg (by omega)] at h
      exact Option.noConfusion h
    | cons now' rest' =>
      simp only [acquireGo] at h
      rw [if_neg (by omega)] at h
      split at h
      · exact Except.noConfusion (Option.some.inj h)
      · rename_i ls' heq
        exact ih (b.refill now) ls'
          (by rw [TokenBucket.refill_capacity]; exact hle)
          (by rw [TokenBucket.refill_capacity]; exact hcap) h

/-- C9: a request strictly larger than the capacity can never be
granted. If no registered hard limit is violated at the probe instant,
`try_acquire(n)` with `n > capacity` returns `Ok(false)`; and the
blocking `acquire(n)` can never exit its wait loop successfully, at any
schedule of wake instants, whatever the hard limits do. -/
theorem over_capacity_request (rl : RateLimiter) (now n : Nat)
    (hinv : rl.bucket.tokens ≤ rl.bucket.capacity) (hcap : rl.bucket.capacity < n)
    (hok : (checkAll rl.limits now n).2 = none) :
    (rl.try_acquire now n).2 = .ok false ∧
    ∀ ts : List Nat, (rl.acquire ts n).2 ≠ some (.ok ()) := by
  constructor
  · simp only [RateLimiter.try_acquire]
    rw [if_neg (by omega)]
    split
    · rename_i ls e₁ heq
      rw [heq] at hok
      exact Option.noConfusion hok
    · rename_i ls heq
      rw [if_neg (by have := TokenBucket.refill_tokens_le rl.bucket now hinv; omega)]
  · intro ts
    simp only [RateLimiter.acquire]
    split
    · rename_i hn0
      omega
    · split
      · exact fun hh => Option.noConfusion hh
      · split
        · intro hh
          exact Except.noConfusion (Option.some.inj hh)
        · rename_i ls heq
          intro hh
          exact acquireGo_no_grant n _ rl.bucket ls hinv hcap hh

/-- Witness for C9: a full 5-token bucket asked for 6 tokens, no hard
limits. -/
theorem over_capacity_request_witness :
    (RateLimiter.try_acquire
      { bucket := { capacity := 5, tokens := 5, refill_rate := 1, last_refill := 0 },
        limits := [] } 0 6).2 = .ok false ∧
    (RateLimiter.acquire
      { bucket := { capacity := 5, tokens := 5, refill_rate := 1, last_refill := 0 },
        limits := [] } [0, 1000000000] 6).2 ≠ some (.ok ()) :=
  have h := over_capacity_request
    { bucket := { capacity := 5, tokens := 5, refill_rate := 1, last_refill := 0 },
      limits := [] } 0 6 (by decide) (by decide) (by decide)
  ⟨h.1, h.2 [0, 1000000000]⟩

theorem commitAll_ok_of_checked (now n : Nat) : ∀ ls : List (String × HardLimit),
    checkedLimits now n ls → (commitAll ls now n).2 = none := by
  intro ls
  induction ls with
  | nil => intro _; rfl
  | cons p ps ih =>
    intro h
    obtain ⟨nm, l⟩ := p
    have hp := h (nm, l) (List.mem_cons_self _ _)
    have hcons : l.consume now n =
        ({ l with current_calls := l.current_calls + n }, none) := by
      simp only [HardLimit.consume, hp.1]
      rw [if_pos hp.2]
    simp only [commitAll, hcons]
    exact ih (fun q hq => h q (List.mem_cons_of_mem _ hq))

theorem acquireGo_error_frame (n : Nat) : ∀ (ts : List Nat) (b : TokenBucket)
    (ls : List (String × HardLimit)) (e : RateLimitError),
    (∀ now, ts.head? = some now → checkedLimits now n ls) →
    (acquireGo b ls n ts).2 = some (.error e) →
    (∃ used : List Nat, (acquireGo b ls n ts).1.1 = used.foldl TokenBucket.refill b) ∧
    limitsPreserved ls (acquireGo b ls n ts).1.2 := by
  intro ts
  induction ts with
  | nil => intro b ls e _ h; exact Option.noConfusion h
  | cons now rest ih =>
    intro b ls e hchk h
    have hc : checkedLimits now n ls := hchk now rfl
    cases rest with
    | nil =>
      simp only [acquireGo] at h ⊢
      by_cases hbreak : n ≤ (b.refill now).tokens
      · rw [if_pos hbreak] at h
        have hcm := commitAll_ok_of_checked now n ls hc
        split at h
        · rename_i ls₁ e₁ heq
          rw [heq] at hcm
          exact Option.noConfusion hcm
        · exact Except.noConfusion (Option.some.inj h)
      · rw [if_neg hbreak] at h
        exact Option.noConfusion h
    | cons now' rest' =>
      simp only [acquireGo] at h ⊢
      by_cases hbreak : n ≤ (b.refill now).tokens
      · rw [if_pos hbreak] at h
        have hcm := commitAll_ok_of_checked now n ls hc
        split at h
        · rename_i ls₁ e₁ heq
          rw [heq] at hcm
          exact Option.noConfusion hcm
        · exact Except.noConfusion (Option.some.inj h)
      · rw [if_neg hbreak] at h ⊢
        rcases hck : checkAll ls now' n with ⟨ls₁, e₁⟩
        simp only [hck] at h ⊢
        have hpres : limitsPreserved ls ls₁ := by
          have hq := checkAll_preserved now' n ls
          rw [hck] at hq
          exact hq
        cases e₁ with
        | some err =>
          exact ⟨⟨[now], rfl⟩, hpres⟩
        | none =>
          have hc' : ∀ nw, (now' :: rest').head? = some nw → checkedLimits nw n ls₁ := by
            intro nw hnw
            have hnw' : nw = now' := by
              simp only [List.head?, Option.some.injEq] at hnw
              exact hnw.symm
            rw [hnw']
            have hq := checkAll_ok_checked now' n ls (by rw [hck])
            rw [hck] at hq
            exact hq
          obtain ⟨⟨used, hu⟩, hp⟩ := ih (b.refill now) ls₁ e hc' h
          exact ⟨⟨now :: used, hu⟩, limitsPreserved_trans hpres hp⟩

/-- C6: whenever `acquire` or `try_acquire` finishes with a
`HardLimitExceeded` error, every registered hard limit still has the
same name, `max_calls` and `period`, and its `current_calls` is either
untouched or zeroed by the sanctioned lazy window reset; and no tokens
have been removed from the bucket — `try_acquire` leaves the bucket
literally unchanged, and the failing `acquire` has applied nothing but
refills to it. (In this sequential model the commit loops can never
fail after their same-instant checks succeeded, so every error comes
from a read-only check.) -/
theorem rejected_check_frame :
    (∀ (rl : RateLimiter) (now n : Nat) (rl' : RateLimiter) (e : RateLimitError),
      rl.try_acquire now n = (rl', .error e) →
      rl'.bucket = rl.bucket ∧ limitsPreserved rl.limits rl'.limits) ∧
    (∀ (rl : RateLimiter) (ts : List Nat) (n : Nat) (rl' : RateLimiter)
      (e : RateLimitError),
      rl.acquire ts n = (rl', some (.error e)) →
      (∃ used : List Nat, rl'.bucket = used.foldl TokenBucket.refill rl.bucket) ∧
      limitsPreserved rl.limits rl'.limits) := by
  constructor
  · intro rl now n rl' e h
    simp only [RateLimiter.try_acquire] at h
    split at h
    · exact absurd (congrArg Prod.snd h) (by simp)
    · split at h
      · rename_i ls e₁ heq
        have hpres : limitsPreserved rl.limits ls := by
          have hq := checkAll_preserved now n rl.limits
          rw [heq] at hq
          exact hq
        have hb : rl'.bucket = rl.bucket := by
          have hfst := congrArg (fun q => q.1.bucket) h
          exact hfst.symm
        have hl : rl'.limits = ls := by
          have hfst := congrArg (fun q => q.1.limits) h
          exact hfst.symm
        exact ⟨hb, hl ▸ hpres⟩
      · rename_i ls heq
        have hc : checkedLimits now n ls := by
          have hq := checkAll_ok_checked now n rl.limits (by rw [heq])
          rw [heq] at hq
          exact hq
        split at h
        · have hcm := commitAll_ok_of_checked now n ls hc
          split at h
          · rename_i ls₂ e₂ heq₂
            rw [heq₂] at hcm
            exact Option.noConfusion hcm
          · exact absurd (congrArg Prod.snd h) (by simp)
        · exact absurd (congrArg Prod.snd h) (by simp)
  · intro rl ts n rl' e h
    by_cases hn : n = 0
    · simp only [RateLimiter.acquire] at h
      rw [if_pos hn] at h
      exact absurd (congrArg Prod.snd h) (by simp)
    · cases ts with
      | nil =>
        simp only [RateLimiter.acquire] at h
        rw [if_neg hn] at h
        exact absurd (congrArg Prod.snd h) (by simp)
      | cons now₀ tail =>
        have h2 : (match checkAll rl.limits now₀ n with
            | (ls, some e₁) => (({ rl with limits := ls } : RateLimiter),
                some (Except.error e₁))
            | (ls, none) =>
              (({ bucket := (acquireGo rl.bucket ls n (now₀ :: tail)).1.1,
                  limits := (acquireGo rl.bucket ls n (now₀ :: tail)).1.2 } : RateLimiter),
                (acquireGo rl.bucket ls n (now₀ :: tail)).2)) =
            (rl', some (Except.error e)) := by
          rw [← h]
          simp only [RateLimiter.acquire]
          rw [if_neg hn]
        rcases hck : checkAll rl.limits now₀ n with ⟨ls, e₁⟩
        simp only [hck] at h2
        have hpres : limitsPreserved rl.limits ls := by
          have hq := checkAll_preserved now₀ n rl.limits
          rw [hck] at hq
          exact hq
        cases e₁ with
        | some err =>
          have hb : rl'.bucket = rl.bucket :=
            (congrArg (fun q => q.1.bucket) h2).symm
          have hl : rl'.limits = ls :=
            (congrArg (fun q => q.1.limits) h2).symm
          refine ⟨⟨[], hb⟩, ?_⟩
          rw [hl]
          exact hpres
        | none =>
          have hc' : ∀ nw, (now₀ :: tail).head? = some nw → checkedLimits nw n ls := by
            intro nw hnw
            have hnw' : nw = now₀ := by
              simp only [List.head?, Option.some.injEq] at hnw
              exact hnw.symm
            rw [hnw']
            have hq := checkAll_ok_checked now₀ n rl.limits (by rw [hck])
            rw [hck] at hq
            exact hq
          have herr : (acquireGo rl.bucket ls n (now₀ :: tail)).2 =
              some (Except.error e) := congrArg Prod.snd h2
          obtain ⟨⟨used, hu⟩, hp⟩ :=
            acquireGo_error_frame n (now₀ :: tail) rl.bucket ls e hc' herr
          have hb : rl'.bucket = (acquireGo rl.bucket ls n (now₀ :: tail)).1.1 :=
            (congrArg (fun q => q.1.bucket) h2).symm
          have hl : rl'.limits = (acquireGo rl.bucket ls n (now₀ :: tail)).1.2 :=
            (congrArg (fun q => q.1.limits) h2).symm
          refine ⟨⟨used, hb.trans hu⟩, ?_⟩
          rw [hl]
          exact limitsPreserved_trans hpres hp

/-- Witness for C6: a limiter with a zero-quota hard limit rejects both
`try_acquire(1)` and `acquire(1)` and leaves its state intact. -/
theorem rejected_check_frame_witness :
    ((RateLimiter.try_acquire
      { bucket := { capacity := 5, tokens := 2, refill_rate := 1, last_refill := 0 },
        limits := [("d",
          { max_calls := 0, current_calls := 0, period := .minute, period_start := 0 })] }
      0 1).1.bucket =
        { capacity := 5, tokens := 2, refill_rate := 1, last_refill := 0 } ∧
      limitsPreserved
        [("d", { max_calls := 0, current_calls := 0, period := .minute, period_start := 0 })]
        (RateLimiter.try_acquire
          { bucket := { capacity := 5, tokens := 2, refill_rate := 1, last_refill := 0 },
            limits := [("d",
              { max_calls := 0, current_calls := 0, period := .minute,
                period_start := 0 })] } 0 1).1.limits) ∧
    ((∃ used : List Nat,
        (RateLimiter.acquire
          { bucket := { capacity := 5, tokens := 2, refill_rate := 1, last_refill := 0 },
            limits := [("d",
              { max_calls := 0, current_calls := 0, period := .minute,
                period_start := 0 })] } [0] 1).1.bucket =
          used.foldl TokenBucket.refill
            { capacity := 5, tokens := 2, refill_rate := 1, last_refill := 0 }) ∧
      limitsPreserved
        [("d", { max_calls := 0, current_calls := 0, period := .minute, period_start := 0 })]
        (RateLimiter.acquire
          { bucket := { capacity := 5, tokens := 2, refill_rate := 1, last_refill := 0 },
            limits := [("d",
              { max_calls := 0, current_calls := 0, period := .minute,
                period_start := 0 })] } [0] 1).1.limits) :=
  ⟨rejected_check_frame.1
      { bucket := { capacity := 5, tokens := 2, refill_rate := 1, last_refill := 0 },
        limits := [("d",
          { max_calls := 0, current_calls := 0, period := .minute, period_start := 0 })] }
      0 1 _ (.hardLimitExceeded 0 .minute 0 60000000000) (by decide),
   rejected_check_frame.2
      { bucket := { capacity := 5, tokens := 2, refill_rate := 1, last_refill := 0 },
        limits := [("d",
          { max_calls := 0, current_calls := 0, period := .minute, period_start := 0 })] }
      [0] 1 _ (.hardLimitExceeded 0 .minute 0 60000000000) (by decide)⟩

end Emicon
